import Mathlib

/-!
Verification development for the Hybride_AI_Soup_Webscrapper pipeline
(src/NewsScraper.py and src/categorizationLLM.py).

The Python sources are embedded shallowly: pure string processing is
translated function by function; the SQLite table is a list of rows keyed
by Title; external collaborators (browser driver, HTTP transport, the
json.loads library routine, urllib.parse.urljoin, the newspaper article
fetcher) are parameters of the embedded operations, so theorems quantify
over their behaviour or constrain it by the contract stated in the spec.
-/

set_option maxRecDepth 100000

namespace Scraper

/-- Python str.strip whitespace class: space, tab, newline, carriage
return, vertical tab, form feed. -/
def pyIsSpace (c : Char) : Bool :=
  c = ' ' || c = '\t' || c = '\n' || c = '\r' || c = Char.ofNat 11 || c = Char.ofNat 12

/-- Drop leading whitespace characters (Python lstrip). -/
def ltrimChars : List Char → List Char
  | [] => []
  | c :: cs => if pyIsSpace c then ltrimChars cs else c :: cs

/-- Drop trailing whitespace characters (Python rstrip). -/
def rtrimChars (cs : List Char) : List Char :=
  (ltrimChars cs.reverse).reverse

/-- Python str.strip(): drop leading and trailing whitespace. -/
def pyStrip (s : String) : String :=
  String.mk (rtrimChars (ltrimChars s.data))

/-- Boolean prefix test on character lists: second argument is the
pattern. -/
def startsWithChars : List Char → List Char → Bool
  | _, [] => true
  | [], _ :: _ => false
  | c :: cs, p :: ps => c = p && startsWithChars cs ps

/-- Python str.startswith. -/
def pyStartsWith (s p : String) : Bool :=
  startsWithChars s.data p.data

/-- Python str.endswith. -/
def pyEndsWith (s p : String) : Bool :=
  startsWithChars s.data.reverse p.data.reverse

/-- Python slicing s[:-n] (drop the last n characters). -/
def dropRightStr (s : String) (n : Nat) : String :=
  String.mk (s.data.take (s.data.length - n))

/-- Article dictionary as built by flatten_news / the markdown converter:
the four keys Title, Publication Date, Author, Link, each possibly absent
or null (both modelled as none, matching dict.get returning None). -/
structure ArticleDict where
  title : Option String
  pubDate : Option String
  author : Option String
  link : Option String
deriving Repr, DecidableEq

/-- Lookahead for the regex fragment of one or more digits followed by a
dot, used by the block-splitting pattern of convert_markdown_to_articles.
Auxiliary part: consume further digits until the dot. -/
def digitsDotAux : List Char → Bool
  | [] => false
  | c :: cs => if c = '.' then true else c.isDigit && digitsDotAux cs

/-- Lookahead test: does the character list begin with one or more digits
followed by a dot. -/
def digitsDot : List Char → Bool
  | [] => false
  | c :: cs => c.isDigit && digitsDotAux cs

/-- Block splitter of convert_markdown_to_articles: re.split at every
newline that is immediately followed by digits and a dot.  The newline is
consumed, the digits stay with the following block. -/
def splitBlocksAux : List Char → List Char → List (List Char)
  | [], acc => [acc.reverse]
  | '\n' :: rest, acc =>
      if digitsDot rest then acc.reverse :: splitBlocksAux rest []
      else splitBlocksAux rest ('\n' :: acc)
  | c :: rest, acc => splitBlocksAux rest (c :: acc)

/-- Greedy whitespace consumption, the regex fragment of zero or more
whitespace characters followed by a non-whitespace literal. -/
def skipWs : List Char → List Char
  | [] => []
  | c :: cs => if pyIsSpace c then skipWs cs else c :: cs

/-- Consume a literal pattern prefix, or fail. -/
def dropPre : List Char → List Char → Option (List Char)
  | [], rest => some rest
  | _ :: _, [] => none
  | a :: ps, c :: rest => if c = a then dropPre ps rest else none

/-- Consume one or more digits followed by a dot (auxiliary: after the
first digit). -/
def matchDigitsDotAux : List Char → Option (List Char)
  | [] => none
  | c :: cs => if c = '.' then some cs else if c.isDigit then matchDigitsDotAux cs else none

/-- Consume one or more digits followed by a dot. -/
def matchDigitsDot : List Char → Option (List Char)
  | [] => none
  | c :: cs => if c.isDigit then matchDigitsDotAux cs else none

/-- Capture group (.*): all characters up to the next newline. -/
def takeLine (cs : List Char) : List Char :=
  cs.takeWhile (fun c => c ≠ '\n')

/-- Leading token of the four field regexes in
convert_markdown_to_articles: digits-dot for the Title line, a dash for
the labelled sub-lines. -/
inductive LeadTok where
  | numdot
  | dash
deriving Repr, DecidableEq

/-- Match one field regex at the current position: leading token, greedy
whitespace, the literal label, greedy whitespace, then capture the rest of
the line.  Because each whitespace run is followed by a non-whitespace
literal or by the final capture, the greedy semantics of the Python regex
engine is deterministic and is implemented directly. -/
def matchAt (lead : LeadTok) (label : List Char) (cs : List Char) : Option (List Char) :=
  let step1 := match lead with
    | LeadTok.numdot => matchDigitsDot cs
    | LeadTok.dash => dropPre ['-'] cs
  match step1 with
  | none => none
  | some r1 =>
    match dropPre label (skipWs r1) with
    | none => none
    | some r3 => some (takeLine (skipWs r3))

/-- Leftmost search of one field regex in a block (re.search). -/
def searchPat (lead : LeadTok) (label : List Char) : List Char → Option (List Char)
  | [] => matchAt lead label []
  | c :: rest =>
    match matchAt lead label (c :: rest) with
    | some v => some v
    | none => searchPat lead label rest

/-- Convert one markdown block to an article dict: Title and Link are
required, Publication Date and Author optional; all captured values are
stripped; a block whose stripped Link is empty is dropped. -/
def mdBlockToArticle (block : List Char) : Option ArticleDict :=
  let t := searchPat LeadTok.numdot (String.data "**Title**:") block
  let d := searchPat LeadTok.dash (String.data "**Publication Date**:") block
  let a := searchPat LeadTok.dash (String.data "**Author**:") block
  let l := searchPat LeadTok.dash (String.data "**Link**:") block
  match t, l with
  | some tv, some lv =>
    let linkS := pyStrip (String.mk lv)
    if linkS ≠ "" then
      some ⟨some (pyStrip (String.mk tv)),
            d.map (fun x => pyStrip (String.mk x)),
            a.map (fun x => pyStrip (String.mk x)),
            some linkS⟩
    else none
  | _, _ => none

/-- Translation of convert_markdown_to_articles (NewsScraper.py lines
203-219): strip, split into numbered blocks, convert each block, keeping
only blocks with both a Title and a nonempty Link. -/
def convert_markdown_to_articles (markdown_text : String) : List ArticleDict :=
  (splitBlocksAux (pyStrip markdown_text).data []).filterMap mdBlockToArticle

/-- Fence stripping step of flatten_news (lines 227-230): a leading
"```json" fence is removed, and a trailing "```" fence, with stripping
after each removal. -/
def stripFenceJson (s : String) : String :=
  if pyStartsWith s "```json" then
    let t := pyStrip (String.mk (s.data.drop 7))
    if pyEndsWith t "```" then pyStrip (dropRightStr t 3) else t
  else s

/-- Link-resolution step of flatten_news (lines 242-248), per article:
the link value (empty default) is stripped; an empty link drops the
article; a link starting with http leaves the article unchanged;
otherwise the link is replaced by urljoin of the base URL and the
stripped link.  The urljoin collaborator is a parameter. -/
def resolveArticle (uj : String → String → String) (base_url : String)
    (a : ArticleDict) : Option ArticleDict :=
  if pyStrip (a.link.getD "") = "" then none
  else if pyStartsWith (pyStrip (a.link.getD "")) "http" then some a
  else some { a with link := some (uj base_url (pyStrip (a.link.getD ""))) }

/-- Resolution loop over a parsed article list. -/
def flattenArticles (uj : String → String → String) (base_url : String)
    (arts : List ArticleDict) : List ArticleDict :=
  arts.filterMap (resolveArticle uj base_url)

/-- Translation of the per-page body of flatten_news (lines 223-249).
A falsy (empty) page text is skipped (none); the text is stripped and
de-fenced; a text not starting with a bracket or brace goes through the
markdown converter, any other text through json.loads, modelled by the
decoder parameter jd whose failure (none) skips the page. -/
def flatten_one (uj : String → String → String)
    (jd : String → Option (List ArticleDict))
    (base_url news_data : String) : Option (List ArticleDict) :=
  if news_data = "" then none
  else
    let nd := stripFenceJson (pyStrip news_data)
    if ¬ pyStartsWith nd "[" && ¬ pyStartsWith nd "\x7b" then
      some (flattenArticles uj base_url (convert_markdown_to_articles nd))
    else
      (jd nd).map (flattenArticles uj base_url)

/-- Body of the pagination while loop of find_all_pagination_urls
(NewsScraper.py lines 61-87), one seed.  Parameters: uj is the urljoin
collaborator; next yields the href found by the two detection strategies
on the currently loaded page (none when both find_element calls fail);
fetch tells whether navigating to a URL succeeds (a failed driver.get
raises, is caught at seed level, and ends the loop for that seed).  The
source never reassigns current_url, so a relative candidate is joined
against the seed URL, not against the currently loaded page.  The fuel
argument carries the remaining page budget: fuel = 11 - length of the
accumulated sequence, so fuel 0 is exactly the max_pages check firing.
First, candidate resolution (lines 79-80): a truthy candidate without the
http prefix is joined against the seed. -/
def resolveCand (uj : String → String → String) (seed c : String) : String :=
  if c ≠ "" ∧ pyStartsWith c "http" = false then uj seed c else c

/-- Loop body itself (lines 61-87). -/
def paginateLoop (uj : String → String → String) (next : String → Option String)
    (fetch : String → Bool) (seed : String) :
    String → List String → Nat → List String
  | _, acc, 0 => acc
  | loaded, acc, fuel + 1 =>
    match next loaded with
    | none => acc
    | some c =>
      if resolveCand uj seed c ≠ "" ∧ resolveCand uj seed c ∉ acc then
        if fetch (resolveCand uj seed c) then
          paginateLoop uj next fetch seed (resolveCand uj seed c)
            (acc ++ [resolveCand uj seed c]) fuel
        else acc ++ [resolveCand uj seed c]
      else acc

/-- Pagination discovery for one seed (find_all_pagination_urls, lines
55-89): the seed URL is appended before the first fetch, so a seed whose
initial navigation fails still yields the singleton sequence; max_pages
is 11, hence initial fuel 10 on top of the singleton accumulator. -/
def find_pagination_urls (uj : String → String → String)
    (next : String → Option String) (fetch : String → Bool)
    (base_url : String) : List String :=
  if fetch base_url then paginateLoop uj next fetch base_url base_url [base_url] 10
  else [base_url]

/-- Row of the news table (save_to_db schema, lines 269-279, plus the
enrichment columns added by update_article_details and
categorizationLLM), Title being the primary key. -/
structure Row where
  title : String
  author : Option String
  pub_date : Option String
  link : String
  base_url : String
  paginated_url : String
  created_time : String
  article : Option String
  keywords : Option String
  main_category : Option String
  subcategories : Option String
  summary : Option String
deriving Repr, DecidableEq

/-- Lookup of the row with the given Title (primary-key access). -/
def findRow (db : List Row) (t : String) : Option Row :=
  db.find? (fun r => r.title = t)

/-- Titles present in the table. -/
def titles (db : List Row) : List String :=
  db.map (fun r => r.title)

/-- SQLite INSERT OR IGNORE against the Title primary key: the row is
appended only when no row with that Title exists. -/
def insert_or_ignore (db : List Row) (r : Row) : List Row :=
  if db.any (fun x => x.title = r.title) then db else db ++ [r]

/-- Python truthiness of an optional string field: None and the empty
string are falsy. -/
def truthy : Option String → Bool
  | none => false
  | some s => s ≠ ""

/-- Guard of save_to_db (line 292): the insert is skipped when Title,
Link, base URL, or paginated URL is falsy. -/
def save_guard (a : ArticleDict) (base pag : String) : Bool :=
  truthy a.title && truthy a.link && !(base = "") && !(pag = "")

/-- Row built by the INSERT of save_to_db (lines 294-298): stub fields
plus the created_time of the run, enrichment columns NULL. -/
def rowOf (created base pag : String) (a : ArticleDict) : Row :=
  ⟨a.title.getD "", a.author, a.pubDate, a.link.getD "", base, pag, created,
   none, none, none, none, none⟩

/-- Per-article body of save_to_db (lines 287-298). -/
def save_article (db : List Row) (created base pag : String) (a : ArticleDict) : List Row :=
  if save_guard a base pag then insert_or_ignore db (rowOf created base pag a)
  else db

/-- Inner loop of save_to_db over the article list of one paginated URL. -/
def save_articles (db : List Row) (created base pag : String)
    (arts : List ArticleDict) : List Row :=
  arts.foldl (fun d a => save_article d created base pag a) db

/-- Middle loop of save_to_db over the paginated URLs of one seed. -/
def save_paginated (db : List Row) (created base : String)
    (prs : List (String × List ArticleDict)) : List Row :=
  prs.foldl (fun d pr => save_articles d created base pr.1 pr.2) db

/-- Translation of save_to_db (lines 283-299): created_time is computed
once per run and shared by every insert of the run. -/
def save_to_db (db : List Row) (created : String)
    (pages : List (String × List (String × List ArticleDict))) : List Row :=
  pages.foldl (fun d pg => save_paginated d created pg.1 pg.2) db

/-- Outcome of the newspaper Article download+parse collaborator used by
update_article_details: main text, author list, optional publish date
(already in isoformat). -/
structure ScrapeRes where
  text : String
  authors : List String
  publish_date : Option String
deriving Repr, DecidableEq

/-- Python ", ".join. -/
def joinComma : List String → String
  | [] => ""
  | [s] => s
  | s :: rest => s ++ ", " ++ joinComma rest

/-- Selection predicate of update_article_details (line 320): rows whose
article, Author, or Publication_Date is NULL. -/
def selectedForUpdate (r : Row) : Bool :=
  r.article = none || r.author = none || r.pub_date = none

/-- Per-row update of update_article_details (lines 322-337): the scraped
main text overwrites the article column unconditionally; the scraped
author (falling back to the Author read from the row when the scrape
yields no authors) and the scraped publish date (likewise falling back)
are combined with the stored values through SQL COALESCE. -/
def applyScrape (r : Row) (s : ScrapeRes) : Row :=
  let scraped_author : Option String :=
    if s.authors ≠ [] then some (joinComma s.authors) else r.author
  let scraped_pub : Option String :=
    match s.publish_date with
    | some d => some d
    | none => r.pub_date
  { r with
    article := some s.text,
    author := match scraped_author with | some x => some x | none => r.author,
    pub_date := match scraped_pub with | some x => some x | none => r.pub_date }

/-- Translation of update_article_details (lines 310-343): every selected
row whose link scrapes successfully is updated in place; a scrape failure
(exception) leaves the row unchanged and the loop continues.  The scrape
collaborator is keyed by the Link column, as in Article(link). -/
def update_article_details (scrape : String → Option ScrapeRes)
    (db : List Row) : List Row :=
  db.map (fun r =>
    if selectedForUpdate r then
      match scrape r.link with
      | none => r
      | some s => applyScrape r s
    else r)

/-- Fixed ten-value taxonomy, as enumerated in the system prompt and in
the enum of the response_format schema (categorizationLLM.py lines
68-79). -/
def taxonomy : List String :=
  ["New Smart Home Devices",
   "Smart Home Protocols and Standards",
   "Smart Device Installation and Setup",
   "Home Automation and Ecosystem Integration",
   "Energy Efficiency and Sustainability",
   "IoT Security and Privacy",
   "Emerging Technologies and Trends",
   "Troubleshooting and Maintenance",
   "Lifestyle Applications of Smart Homes",
   "Developer and Industry News"]

/-- Pydantic model ArticleExtractionResponse (categorizationLLM.py lines
14-18): four typed fields, main_category being an unrestricted string. -/
structure ArticleExtractionResponse where
  keywords : List String
  main_category : String
  subcategories : List String
  summary : String
deriving Repr, DecidableEq

/-- JSON values, as far as the extraction response needs them. -/
inductive JVal where
  | jnull
  | jstr (s : String)
  | jarr (xs : List JVal)

/-- Key lookup in a decoded JSON object. -/
def lookupKey (obj : List (String × JVal)) (k : String) : Option JVal :=
  (obj.find? (fun p => p.1 = k)).map (fun p => p.2)

/-- String-typed field validation. -/
def asStr : JVal → Option String
  | JVal.jstr s => some s
  | _ => none

/-- List-of-strings-typed field validation. -/
def asStrList : JVal → Option (List String)
  | JVal.jarr xs => xs.mapM asStr
  | _ => none

/-- Validation performed by ArticleExtractionResponse(**parsed): the four
required fields must be present with the declared types.  No membership
check against the taxonomy is performed here; the enum constraint lives
only in the request schema sent to the model. -/
def validateExtraction (obj : List (String × JVal)) : Option ArticleExtractionResponse :=
  match lookupKey obj "keywords" >>= asStrList,
        lookupKey obj "main_category" >>= asStr,
        lookupKey obj "subcategories" >>= asStrList,
        lookupKey obj "summary" >>= asStr with
  | some k, some m, some sc, some su => some ⟨k, m, sc, su⟩
  | _, _, _, _ => none

/-- Translation of the tail of _call_llm (categorizationLLM.py lines
135-193).  Transport, stream accumulation, fence stripping and json.loads
are abstracted into the decoded argument: an error models an API error or
a json.loads failure, both of which raise; a decoded object is then put
through the pydantic validation, whose failure also raises. -/
def call_llm (decoded : Except String (List (String × JVal))) :
    Except String ArticleExtractionResponse :=
  match decoded with
  | Except.error e => Except.error e
  | Except.ok obj =>
    match validateExtraction obj with
    | some ex => Except.ok ex
    | none => Except.error "Failed to parse LLM response"

/-- Model of json.dumps on a list of plain strings, used for the keywords
and subcategories columns.  Its exact output shape is irrelevant to the
claims; what matters is that it is a total function into strings, so the
stored column is never NULL. -/
def dumpsList (xs : List String) : String :=
  "[" ++ joinComma (xs.map (fun s => "\"" ++ s ++ "\"")) ++ "]"

/-- UPDATE news SET ... WHERE Title = t: apply the field update to every
row whose Title matches (at most one, Title being the primary key). -/
def updateByTitle (db : List Row) (t : String) (f : Row → Row) : List Row :=
  db.map (fun r => if r.title = t then f r else r)

/-- Columns written by the categorization UPDATE (lines 209-216): the
four categorical fields, all set in the one statement. -/
def applyExtraction (e : ArticleExtractionResponse) (r : Row) : Row :=
  { r with
    keywords := some (dumpsList e.keywords),
    main_category := some e.main_category,
    subcategories := some (dumpsList e.subcategories),
    summary := some e.summary }

/-- Translation of load_articles (lines 222-229): rows with any of the
four categorical columns NULL. -/
def load_articles (db : List Row) : List Row :=
  db.filter (fun r =>
    r.summary = none || r.keywords = none || r.main_category = none || r.subcategories = none)

/-- Loop body of process_articles (lines 202-220) for one selected row:
a raising _call_llm is caught, leaving the store untouched; a successful
call updates the four categorical columns of the row with that title. -/
def cat_step (decode : Row → Except String (List (String × JVal)))
    (cur : List Row) (r : Row) : List Row :=
  match call_llm (decode r) with
  | Except.error _ => cur
  | Except.ok ex => updateByTitle cur r.title (applyExtraction ex)

/-- Translation of process_articles (lines 195-220): the selection is
snapshotted first, then each selected row is processed in turn; one row
failing never aborts the loop.  The decode parameter gives the decoded
response per row. -/
def process_articles (decode : Row → Except String (List (String × JVal)))
    (db : List Row) : List Row :=
  (load_articles db).foldl (cat_step decode) db

/-- Streamed line of the extraction response: either a decodable fragment
contributing delta content, or a line whose json.loads raises
JSONDecodeError (caught, fragment skipped). -/
inductive StreamLine where
  | good (s : String)
  | bad
deriving Repr, DecidableEq

/-- Outcome of the model call for one page in
extract_news_articles_with_chatgpt: requests.post raising, a non-200
status, or a streamed body. -/
inductive ApiOutcome where
  | exn
  | httpError (status : Nat) (body : String)
  | ok (lines : List StreamLine)
deriving Repr, DecidableEq

/-- Accumulation of streamed delta content (lines 180-187): fragments
whose decode fails are skipped, the rest concatenated in order. -/
def accumulate (lines : List StreamLine) : String :=
  String.join (lines.filterMap (fun l =>
    match l with
    | StreamLine.good s => some s
    | StreamLine.bad => none))

/-- State of the per-page extraction loop: the Python local
extracted_text (none models the name being unbound, as at the top of the
first iteration) and the accumulated extracted_news association list. -/
structure ExtractState where
  et : Option String
  extracted : List (String × String)
deriving Repr, DecidableEq

/-- Body of the per-URL loop of extract_news_articles_with_chatgpt
(lines 145-193).  The local extracted_text is assigned inside the try
block only: a 200 response assigns the accumulated stream, a non-200
response leaves the value assigned just before the status check (the
empty string), and a raising requests.post is caught while leaving the
local at its previous value — unbound on the first iteration.  The
assignment into extracted_news after the except block then either raises
NameError (modelled as the error case, aborting the whole loop) or
stores the stripped current value of the local under the page key. -/
def extract_step (api : String → ApiOutcome) (st : ExtractState)
    (item : String × String) : Except String ExtractState :=
  let et2 : Option String :=
    match api item.1 with
    | ApiOutcome.exn => st.et
    | ApiOutcome.httpError _ _ => some ""
    | ApiOutcome.ok lines => some (accumulate lines)
  match et2 with
  | none => Except.error "NameError: extracted_text referenced before assignment"
  | some t => Except.ok ⟨some t, st.extracted ++ [(item.1, pyStrip t)]⟩

/-- Translation of the page loop of extract_news_articles_with_chatgpt
for one seed: fold over the html items, threading the leaked local. -/
def extract_news (api : String → ApiOutcome)
    (items : List (String × String)) : Except String (List (String × String)) :=
  (items.foldlM (extract_step api) ⟨none, []⟩).map (fun st => st.extracted)

/-- Frame columns of a row: Title, Link, base URL, paginated URL,
created_time — the columns no enrichment statement mentions. -/
def frameOf (r : Row) : String × String × String × String × String :=
  (r.title, r.link, r.base_url, r.paginated_url, r.created_time)

/-- Nodup key invariant of the news table: Title is the primary key. -/
def titlesNodup (db : List Row) : Prop :=
  (titles db).Nodup

/-- Result of one categorization step for a selected row: a raising call
leaves the row, a successful one applies the four-column update. -/
def cat_result (decode : Row → Except String (List (String × JVal))) (r : Row) : Row :=
  match call_llm (decode r) with
  | Except.error _ => r
  | Except.ok ex => applyExtraction ex r

/-- Base URL of the running example. -/
def exampleBase : String := "https://example.com/news"

/-- Canonical stub list of the running example: two articles, the second
one with null publication date and author. -/
def exampleArts : List ArticleDict :=
  [⟨some "Smart Lock Review", some "2024-01-02", some "Jane Doe",
    some "https://example.com/a"⟩,
   ⟨some "Matter 1.3 Released", none, none, some "https://example.com/b"⟩]

/-- Bare JSON array shape of the running example. -/
def exampleJson : String :=
  "[\x7b\"Title\": \"Smart Lock Review\", \"Publication Date\": \"2024-01-02\", \"Author\": \"Jane Doe\", \"Link\": \"https://example.com/a\"\x7d, \x7b\"Title\": \"Matter 1.3 Released\", \"Publication Date\": null, \"Author\": null, \"Link\": \"https://example.com/b\"\x7d]"

/-- Fenced shape: the same array inside a ```json code fence. -/
def exampleFenced : String := "```json\n" ++ exampleJson ++ "\n```"

/-- Numbered markdown shape with labelled sub-lines, the second block
having no Publication Date and no Author line. -/
def exampleMarkdown : String :=
  "1. **Title**: Smart Lock Review\n   - **Publication Date**: 2024-01-02\n   - **Author**: Jane Doe\n   - **Link**: https://example.com/a\n2. **Title**: Matter 1.3 Released\n   - **Link**: https://example.com/b"

/-- Markdown block with a Title but no Link line: must be dropped. -/
def exampleMdNoLink : String :=
  "1. **Title**: No Link Here\n   - **Publication Date**: 2024-03-04"

/-- Concrete decoder for witnesses: decodes exactly the example JSON
text to the example stubs. -/
def cJd : String → Option (List ArticleDict) :=
  fun s => if s = exampleJson then some exampleArts else none

/-- Concrete urljoin stand-in for witnesses: concatenation against the
base; on an http(s) base every joined result starts with http. -/
def cUj : String → String → String :=
  fun b l => b ++ l

/-- Witness row with every enrichment column null. -/
def wRowA : Row :=
  ⟨"A", none, none, "http://a", "http://b", "http://p", "t0",
   none, none, none, none, none⟩

/-- Witness row with body text present and categorical columns null. -/
def wRowB : Row :=
  ⟨"B", some "Bob", some "2024-01-01", "http://bl", "http://b", "http://p", "t0",
   some "body", none, none, none, none⟩

/-- Witness row with all four categorical columns filled. -/
def wRowFull : Row :=
  ⟨"C", some "Cara", some "2024-02-02", "http://cl", "http://b", "http://p", "t0",
   some "cbody", some "[]", some "IoT Security and Privacy", some "[]", some "sum"⟩

/-- Witness decoded response object passing schema validation. -/
def wObjGood : List (String × JVal) :=
  [("keywords", JVal.jarr [JVal.jstr "iot"]),
   ("main_category", JVal.jstr "IoT Security and Privacy"),
   ("subcategories", JVal.jarr [JVal.jstr "x"]),
   ("summary", JVal.jstr "sum")]

/-- Extraction value that wObjGood validates to. -/
def wExtract : ArticleExtractionResponse :=
  ⟨["iot"], "IoT Security and Privacy", ["x"], "sum"⟩

/-- Witness decode collaborator: the call for row A raises (API error),
every other row decodes to the good object. -/
def wDecode : Row → Except String (List (String × JVal)) :=
  fun r => if r.title = "A" then Except.error "API error" else Except.ok wObjGood

/-- Witness scrape collaborator: succeeds on the link of row A only. -/
def wScrape : String → Option ScrapeRes :=
  fun l => if l = "http://a" then some ⟨"text", ["Ann"], some "2023-01-01"⟩ else none

/-- Witness stub with a relative link. -/
def wArtRel : ArticleDict :=
  ⟨some "A", none, none, some "/a"⟩

/-- Witness stub with an absolute link. -/
def wArtAbs : ArticleDict :=
  ⟨some "D", none, none, some "https://example.com/d"⟩

/-- Witness page structure for the persistence claims. -/
def wPages : List (String × List (String × List ArticleDict)) :=
  [("http://b", [("http://p", [wArtAbs, wArtRel])])]

/-- Decoded response whose main_category lies outside the taxonomy yet
passes the schema validation (all four fields present and typed). -/
def cDecodeBad : Row → Except String (List (String × JVal)) :=
  fun _ => Except.ok
    [("keywords", JVal.jarr []),
     ("main_category", JVal.jstr "Technology"),
     ("subcategories", JVal.jarr []),
     ("summary", JVal.jstr "s")]

/-- Stored row with non-null body text and author but null publication
date, hence still selected by the text-enrichment query. -/
def cRowOld : Row :=
  ⟨"T", some "Alice", none, "http://l", "http://b", "http://p", "t0",
   some "old body", none, none, none, none⟩

/-- Scrape outcome delivering fresh text and a fresh author for the link
of cRowOld. -/
def cScrapeNew : String → Option ScrapeRes :=
  fun l => if l = "http://l" then some ⟨"new body", ["Bob"], none⟩ else none

/-!
Theorems.
-/

/-- C4: the claim says any model-call failure is caught, the page is
skipped with no extracted text, and the loop continues.  The code is a
slip: extracted_text is assigned only inside the try block, so after a
caught transport exception the assignment into extracted_news reads an
unbound or stale local.  First conjunct: a transport exception on the
first page aborts the whole loop with a NameError.  Second conjunct: a
transport exception on a later page stores the previous page text under
the failing page key instead of skipping it.  Third conjunct: the
behaviour the claim describes does hold for non-200 statuses (empty text,
loop continues) and for per-fragment decode errors (fragment skipped,
rest accumulated). -/
theorem c4_extract_transport_bug :
    extract_news (fun _ => ApiOutcome.exn) [("u1", "h1"), ("u2", "h2")]
      = Except.error "NameError: extracted_text referenced before assignment"
    ∧ extract_news
        (fun u => if u = "u1" then ApiOutcome.ok [StreamLine.good "PREV"]
          else if u = "u2" then ApiOutcome.exn
          else ApiOutcome.ok [StreamLine.good "X"])
        [("u1", "h1"), ("u2", "h2"), ("u3", "h3")]
      = Except.ok [("u1", "PREV"), ("u2", "PREV"), ("u3", "X")]
    ∧ extract_news
        (fun u => if u = "u1" then ApiOutcome.httpError 500 "err"
          else ApiOutcome.ok [StreamLine.bad, StreamLine.good "A", StreamLine.bad, StreamLine.good "B"])
        [("u1", "h1"), ("u2", "h2")]
      = Except.ok [("u1", ""), ("u2", "AB")] :=
  ⟨rfl, rfl, rfl⟩

/-- C5: given that the json.loads collaborator decodes the example JSON
array to the example stubs (the meaning of equivalent content), the
fenced array, the bare array, and the equivalent numbered markdown block
all flatten to the same canonical stub list; the markdown block missing
only the Publication Date yields a stub with that field null (second
element of exampleArts); a markdown block without a Link line is
dropped. -/
theorem c5_parser_shape_equivalence
    (jd : String → Option (List ArticleDict)) (uj : String → String → String)
    (hjd : jd exampleJson = some exampleArts) :
    flatten_one uj jd exampleBase exampleFenced = some exampleArts
    ∧ flatten_one uj jd exampleBase exampleJson = some exampleArts
    ∧ flatten_one uj jd exampleBase exampleMarkdown = some exampleArts
    ∧ convert_markdown_to_articles exampleMarkdown = exampleArts
    ∧ flatten_one uj jd exampleBase exampleMdNoLink = some [] := by
  have h1 : flatten_one uj jd exampleBase exampleFenced
      = (jd exampleJson).map (flattenArticles uj exampleBase) := rfl
  have h2 : flatten_one uj jd exampleBase exampleJson
      = (jd exampleJson).map (flattenArticles uj exampleBase) := rfl
  rw [h1, h2, hjd]
  exact ⟨rfl, rfl, rfl, rfl, rfl⟩

/-- Prefix tests characterised by list append. -/
theorem startsWithChars_iff (p : List Char) : ∀ cs,
    startsWithChars cs p = true ↔ ∃ t, cs = p ++ t := by
  induction p with
  | nil => intro cs; simp [startsWithChars]
  | cons a ps ih =>
    intro cs
    cases cs with
    | nil => simp [startsWithChars]
    | cons c cs =>
      simp only [startsWithChars, Bool.and_eq_true, decide_eq_true_eq, ih,
        List.cons_append, List.cons.injEq]
      constructor
      · rintro ⟨h1, t, h2⟩; exact ⟨t, h1, h2⟩
      · rintro ⟨t, h1, h2⟩; exact ⟨h1, t, h2⟩

/-- Leading whitespace dropped by lstrip is whitespace. -/
theorem ltrim_decomp (l : List Char) :
    ∃ t, l = t ++ ltrimChars l ∧ ∀ c ∈ t, pyIsSpace c = true := by
  induction l with
  | nil => exact ⟨[], rfl, by simp⟩
  | cons c cs ih =>
    by_cases h : pyIsSpace c = true
    · obtain ⟨t, ht, hsp⟩ := ih
      refine ⟨c :: t, ?_, ?_⟩
      · simp [ltrimChars, h]; exact ht
      · intro d hd
        rcases List.mem_cons.mp hd with rfl | hd
        · exact h
        · exact hsp d hd
    · refine ⟨[], ?_, by simp⟩
      simp [ltrimChars, h]

/-- Trailing whitespace dropped by rstrip is whitespace. -/
theorem rtrim_decomp (l : List Char) :
    ∃ t, l = rtrimChars l ++ t ∧ ∀ c ∈ t, pyIsSpace c = true := by
  obtain ⟨t, ht, hsp⟩ := ltrim_decomp l.reverse
  refine ⟨t.reverse, ?_, ?_⟩
  · have h2 := congrArg List.reverse ht
    simp only [List.reverse_reverse, List.reverse_append] at h2
    simpa [rtrimChars] using h2
  · intro c hc
    exact hsp c (List.mem_reverse.mp hc)

/-- Removing an all-whitespace suffix preserves a whitespace-free
prefix. -/
theorem startsWith_append_spaces (a sp p : List Char)
    (hp : ∀ c ∈ p, pyIsSpace c = false) (hsp : ∀ c ∈ sp, pyIsSpace c = true)
    (h : startsWithChars (a ++ sp) p = true) : startsWithChars a p = true := by
  rw [startsWithChars_iff] at h ⊢
  obtain ⟨t, ht⟩ := h
  rcases List.append_eq_append_iff.mp ht with ⟨a2, ha, hb⟩ | ⟨c2, hc, _⟩
  · cases a2 with
    | nil =>
      refine ⟨[], ?_⟩
      simp only [List.append_nil] at ha ⊢
      exact ha.symm
    | cons x xs =>
      have hx1 : pyIsSpace x = true := hsp x (by rw [hb]; exact List.mem_append_left _ (List.mem_cons_self _ _))
      have hx2 : pyIsSpace x = false := hp x (by rw [ha]; exact List.mem_append_right _ (List.mem_cons_self _ _))
      rw [hx1] at hx2; cases hx2
  · exact ⟨c2, hc⟩

/-- Character list of the literal http prefix, whitespace-free. -/
theorem http_chars_not_space : ∀ c ∈ ("http".data), pyIsSpace c = false := by decide

/-- String starting with http is nonempty. -/
theorem startsWith_http_ne (s : String) (h : pyStartsWith s "http" = true) : s ≠ "" := by
  intro he
  rw [he] at h
  exact absurd h (by decide)

/-- Stripping preserves an http prefix and nonemptiness. -/
theorem pyStrip_startsWith_http (s : String) (h : pyStartsWith s "http" = true) :
    pyStartsWith (pyStrip s) "http" = true ∧ pyStrip s ≠ "" := by
  have hdata : startsWithChars s.data ("http".data) = true := h
  obtain ⟨t0, ht0⟩ := (startsWithChars_iff _ _).mp hdata
  have hlt : ltrimChars s.data = s.data := by
    rw [ht0]
    rfl
  have hstrip : (pyStrip s).data = rtrimChars s.data := by
    simp [pyStrip, hlt]
  obtain ⟨sp, hsp, hspw⟩ := rtrim_decomp s.data
  have hpre : startsWithChars (rtrimChars s.data) ("http".data) = true := by
    apply startsWith_append_spaces _ sp _ http_chars_not_space hspw
    rw [← hsp]; exact hdata
  constructor
  · show startsWithChars (pyStrip s).data ("http".data) = true
    rw [hstrip]; exact hpre
  · intro he
    have : (pyStrip s).data = [] := by rw [he]
    rw [hstrip] at this
    rw [this] at hpre
    exact absurd hpre (by decide)

/-- Lstrip leaves the empty list or a list with non-space head. -/
theorem ltrim_head_not_space (l : List Char) :
    ltrimChars l = [] ∨ ∃ c t, ltrimChars l = c :: t ∧ pyIsSpace c = false := by
  induction l with
  | nil => left; rfl
  | cons c cs ih =>
    by_cases h : pyIsSpace c = true
    · simpa [ltrimChars, h] using ih
    · right
      exact ⟨c, cs, by simp [ltrimChars, h], by simpa using h⟩

/-- Lstrip is idempotent. -/
theorem ltrim_idem (l : List Char) : ltrimChars (ltrimChars l) = ltrimChars l := by
  rcases ltrim_head_not_space l with h | ⟨c, t, h, hc⟩
  · rw [h]; rfl
  · rw [h]; simp [ltrimChars, hc]

/-- Rstrip is idempotent. -/
theorem rtrim_idem (l : List Char) : rtrimChars (rtrimChars l) = rtrimChars l := by
  unfold rtrimChars
  rw [List.reverse_reverse, ltrim_idem]

/-- Lstrip is a no-op after strip. -/
theorem ltrim_rtrim_ltrim (l : List Char) :
    ltrimChars (rtrimChars (ltrimChars l)) = rtrimChars (ltrimChars l) := by
  rcases ltrim_head_not_space l with h | ⟨c, t, h, hc⟩
  · rw [h]; rfl
  · rw [h]
    obtain ⟨sp, hsp, _⟩ := rtrim_decomp (c :: t)
    cases hr : rtrimChars (c :: t) with
    | nil => rfl
    | cons d t2 =>
      rw [hr] at hsp
      have hd : c = d := by
        have := congrArg (fun x => x.head?) hsp
        simpa using this
      subst hd
      simp [ltrimChars, hc]

/-- Python strip is idempotent. -/
theorem pyStrip_idem (s : String) : pyStrip (pyStrip s) = pyStrip s := by
  show String.mk (rtrimChars (ltrimChars (rtrimChars (ltrimChars s.data)))) = _
  rw [ltrim_rtrim_ltrim, rtrim_idem]
  rfl

/-- Appending on the right preserves a string prefix. -/
theorem pyStartsWith_append (s t p : String) (h : pyStartsWith s p = true) :
    pyStartsWith (s ++ t) p = true := by
  have hdata : startsWithChars s.data p.data = true := h
  obtain ⟨u, hu⟩ := (startsWithChars_iff _ _).mp hdata
  show startsWithChars (s ++ t).data p.data = true
  rw [startsWithChars_iff]
  refine ⟨u ++ t.data, ?_⟩
  rw [String.data_append, hu, List.append_assoc]

/-- Record update writing the link field with its current value is the
identity. -/
theorem link_update_self (a : ArticleDict) (v : String) (h : a.link = some v) :
    { a with link := some v } = a := by
  cases a
  simp only at h
  simp [h]

/-- C5 witness: the theorem instantiated at the concrete decoder cJd and
joiner cUj. -/
theorem c5_witness :
    flatten_one cUj cJd exampleBase exampleFenced = some exampleArts
    ∧ flatten_one cUj cJd exampleBase exampleJson = some exampleArts
    ∧ flatten_one cUj cJd exampleBase exampleMarkdown = some exampleArts
    ∧ convert_markdown_to_articles exampleMarkdown = exampleArts
    ∧ flatten_one cUj cJd exampleBase exampleMdNoLink = some [] :=
  c5_parser_shape_equivalence cJd cUj rfl

/-- C7: link resolution leaves a link whose stripped value already
carries the http prefix (the scheme test the code performs) unchanged,
joins a relative link against the base URL, and is idempotent.  The
hypothesis H is the contract of the external urljoin collaborator on an
absolute base: the joined result is itself http-absolute, or the input is
returned unchanged (as for links carrying a different scheme). -/
theorem c7_resolve_idempotent (uj : String → String → String) (base : String)
    (H : ∀ l, pyStartsWith (uj base l) "http" = true ∨ uj base l = l) :
    (∀ a : ArticleDict, pyStartsWith (pyStrip (a.link.getD "")) "http" = true →
      resolveArticle uj base a = some a)
    ∧ (∀ a : ArticleDict, pyStrip (a.link.getD "") ≠ "" →
      pyStartsWith (pyStrip (a.link.getD "")) "http" = false →
      resolveArticle uj base a
        = some { a with link := some (uj base (pyStrip (a.link.getD ""))) })
    ∧ (∀ a : ArticleDict, (resolveArticle uj base a).bind (resolveArticle uj base)
        = resolveArticle uj base a) := by
  refine ⟨?_, ?_, ?_⟩
  · intro a h
    rw [resolveArticle, if_neg (startsWith_http_ne _ h), if_pos h]
  · intro a hne hno
    rw [resolveArticle, if_neg hne, if_neg (by rw [hno]; exact Bool.false_ne_true)]
  · intro a
    by_cases h1 : pyStrip (a.link.getD "") = ""
    · rw [resolveArticle, if_pos h1]
      rfl
    · by_cases h2 : pyStartsWith (pyStrip (a.link.getD "")) "http" = true
      · have hra : resolveArticle uj base a = some a := by
          rw [resolveArticle, if_neg h1, if_pos h2]
        rw [hra]
        show resolveArticle uj base a = some a
        exact hra
      · have hra : resolveArticle uj base a
            = some { a with link := some (uj base (pyStrip (a.link.getD ""))) } := by
          rw [resolveArticle, if_neg h1, if_neg h2]
        rw [hra]
        show resolveArticle uj base { a with link := some (uj base (pyStrip (a.link.getD ""))) }
          = some { a with link := some (uj base (pyStrip (a.link.getD ""))) }
        rcases H (pyStrip (a.link.getD "")) with hH | hH
        · obtain ⟨hs, hne⟩ := pyStrip_startsWith_http _ hH
          rw [resolveArticle]
          simp only [Option.getD_some]
          rw [if_neg hne, if_pos hs]
        · rw [resolveArticle]
          simp only [Option.getD_some]
          rw [hH, pyStrip_idem, if_neg h1, if_neg h2]
          rw [hH]

/-- C7 witness: the theorem at the concrete joiner cUj over an
http-absolute base, applied to a relative-link stub and an absolute-link
stub. -/
theorem c7_witness :
    resolveArticle cUj "https://example.com/news" wArtAbs = some wArtAbs
    ∧ (resolveArticle cUj "https://example.com/news" wArtRel).bind
        (resolveArticle cUj "https://example.com/news")
      = resolveArticle cUj "https://example.com/news" wArtRel := by
  have h := c7_resolve_idempotent cUj "https://example.com/news"
    (fun l => Or.inl (pyStartsWith_append "https://example.com/news" l "http" (by decide)))
  exact ⟨h.1 wArtAbs (by decide), h.2.2 wArtRel⟩

/-- Invariant of the pagination loop: head, nodup, and the page budget
are preserved by every iteration. -/
theorem paginate_invariant (uj : String → String → String)
    (next : String → Option String) (fetch : String → Bool) (seed : String) :
    ∀ (fuel : Nat) (loaded : String) (acc : List String),
      acc ≠ [] → acc.Nodup → acc.length + fuel ≤ 11 →
      (paginateLoop uj next fetch seed loaded acc fuel).head? = acc.head?
      ∧ (paginateLoop uj next fetch seed loaded acc fuel).Nodup
      ∧ (paginateLoop uj next fetch seed loaded acc fuel).length ≤ 11 := by
  intro fuel
  induction fuel with
  | zero =>
    intro loaded acc h1 h2 h3
    rw [paginateLoop]
    exact ⟨rfl, h2, by omega⟩
  | succ n ih =>
    intro loaded acc h1 h2 h3
    rw [paginateLoop]
    cases hnext : next loaded with
    | none =>
      dsimp only
      exact ⟨rfl, h2, by omega⟩
    | some c =>
      dsimp only
      by_cases hc : resolveCand uj seed c ≠ "" ∧ resolveCand uj seed c ∉ acc
      · rw [if_pos hc]
        have hnd2 : (acc ++ [resolveCand uj seed c]).Nodup := by
          rw [List.nodup_append]
          refine ⟨h2, List.nodup_singleton _, ?_⟩
          intro x hx hx2
          rw [List.mem_singleton] at hx2
          subst hx2
          exact hc.2 hx
        have hh2 : (acc ++ [resolveCand uj seed c]).head? = acc.head? :=
          List.head?_append_of_ne_nil _ h1
        have hlen2 : (acc ++ [resolveCand uj seed c]).length + n ≤ 11 := by
          simp only [List.length_append, List.length_singleton]
          omega
        cases hf : fetch (resolveCand uj seed c) with
        | true =>
          rw [if_pos rfl]
          obtain ⟨ha, hb, hc2⟩ := ih (resolveCand uj seed c)
            (acc ++ [resolveCand uj seed c]) (by simp) hnd2 hlen2
          exact ⟨by rw [ha, hh2], hb, hc2⟩
        | false =>
          rw [if_neg (by simp)]
          exact ⟨hh2, hnd2, by omega⟩
      · rw [if_neg hc]
        exact ⟨rfl, h2, by omega⟩

/-- C6: for every seed and every behaviour of the detection strategies,
the urljoin collaborator, and the fetcher, the discovered sequence starts
with the seed URL, contains no duplicates, and is at most 11 long (seed
plus 10 additional pages); the loop in the embedding stops exactly when
the limit is reached or no strategy yields a new URL. -/
theorem c6_pagination_invariants (uj : String → String → String)
    (next : String → Option String) (fetch : String → Bool) (base_url : String) :
    (find_pagination_urls uj next fetch base_url).head? = some base_url
    ∧ (find_pagination_urls uj next fetch base_url).Nodup
    ∧ (find_pagination_urls uj next fetch base_url).length ≤ 11 := by
  rw [find_pagination_urls]
  by_cases h : fetch base_url = true
  · rw [if_pos h]
    obtain ⟨h1, h2, h3⟩ := paginate_invariant uj next fetch base_url 10 base_url
      [base_url] (by simp) (List.nodup_singleton _) (by simp)
    exact ⟨by rw [h1]; rfl, h2, h3⟩
  · rw [if_neg h]
    exact ⟨rfl, List.nodup_singleton _, by simp⟩

/-- Unfolding equation of the article fold. -/
theorem save_articles_cons (db : List Row) (c b p : String) (a : ArticleDict)
    (as : List ArticleDict) :
    save_articles db c b p (a :: as) = save_articles (save_article db c b p a) c b p as := rfl

/-- Unfolding equation of the paginated-URL fold. -/
theorem save_paginated_cons (db : List Row) (c b : String)
    (pr : String × List ArticleDict) (prs : List (String × List ArticleDict)) :
    save_paginated db c b (pr :: prs)
      = save_paginated (save_articles db c b pr.1 pr.2) c b prs := rfl

/-- Unfolding equation of the page fold. -/
theorem save_to_db_cons (db : List Row) (c : String)
    (pg : String × List (String × List ArticleDict))
    (pgs : List (String × List (String × List ArticleDict))) :
    save_to_db db c (pg :: pgs) = save_to_db (save_paginated db c pg.1 pg.2) c pgs := rfl

/-- Insert-or-ignore can only add titles. -/
theorem mem_titles_insert {t : String} {db : List Row} (r : Row)
    (h : t ∈ titles db) : t ∈ titles (insert_or_ignore db r) := by
  unfold insert_or_ignore
  split
  · exact h
  · simpa [titles] using Or.inl (by simpa [titles] using h)

/-- Saving one article can only add titles. -/
theorem mem_titles_save_article {t : String} {db : List Row} (c b p : String)
    (a : ArticleDict) (h : t ∈ titles db) : t ∈ titles (save_article db c b p a) := by
  unfold save_article
  split
  · exact mem_titles_insert _ h
  · exact h

/-- Saving an article list can only add titles. -/
theorem mem_titles_save_articles {t : String} (c b p : String)
    (as : List ArticleDict) : ∀ {db : List Row}, t ∈ titles db →
    t ∈ titles (save_articles db c b p as) := by
  induction as with
  | nil => intro db h; exact h
  | cons a as ih =>
    intro db h
    rw [save_articles_cons]
    exact ih (mem_titles_save_article c b p a h)

/-- Saving the lists of one seed can only add titles. -/
theorem mem_titles_save_paginated {t : String} (c b : String)
    (prs : List (String × List ArticleDict)) : ∀ {db : List Row}, t ∈ titles db →
    t ∈ titles (save_paginated db c b prs) := by
  induction prs with
  | nil => intro db h; exact h
  | cons pr prs ih =>
    intro db h
    rw [save_paginated_cons]
    exact ih (mem_titles_save_articles c b pr.1 pr.2 h)

/-- Running save over all pages can only add titles. -/
theorem mem_titles_save_to_db {t : String} (c : String)
    (pgs : List (String × List (String × List ArticleDict))) :
    ∀ {db : List Row}, t ∈ titles db → t ∈ titles (save_to_db db c pgs) := by
  induction pgs with
  | nil => intro db h; exact h
  | cons pg pgs ih =>
    intro db h
    rw [save_to_db_cons]
    exact ih (mem_titles_save_paginated c pg.1 pg.2 h)

/-- Insert-or-ignore against an existing title is a no-op. -/
theorem insert_or_ignore_noop {db : List Row} {r : Row}
    (h : r.title ∈ titles db) : insert_or_ignore db r = db := by
  unfold insert_or_ignore
  rw [if_pos]
  rw [List.any_eq_true]
  obtain ⟨x, hx, ht⟩ := by simpa [titles] using h
  exact ⟨x, hx, by simp [ht]⟩

/-- Saving a guard-passing article leaves its title present. -/
theorem save_article_present (db : List Row) (c b p : String) (a : ArticleDict)
    (hg : save_guard a b p = true) :
    a.title.getD "" ∈ titles (save_article db c b p a) := by
  unfold save_article
  rw [if_pos hg]
  unfold insert_or_ignore
  split
  · rename_i hany
    rw [List.any_eq_true] at hany
    obtain ⟨x, hx, ht⟩ := hany
    simp only [decide_eq_true_eq] at ht
    have : x.title ∈ titles db := by simp [titles]; exact ⟨x, hx, rfl⟩
    rw [ht] at this
    exact this
  · simp [titles, rowOf]

/-- Saving an article whose title is already present (or whose guard
fails) changes nothing. -/
theorem save_article_noop (db : List Row) (c b p : String) (a : ArticleDict)
    (h : save_guard a b p = true → a.title.getD "" ∈ titles db) :
    save_article db c b p a = db := by
  unfold save_article
  split
  · rename_i hg
    exact insert_or_ignore_noop (h hg)
  · rfl

/-- Saving an article list whose guarded titles are all present changes
nothing. -/
theorem save_articles_noop (c b p : String) (as : List ArticleDict) :
    ∀ (db : List Row),
    (∀ a ∈ as, save_guard a b p = true → a.title.getD "" ∈ titles db) →
    save_articles db c b p as = db := by
  induction as with
  | nil => intro db _; rfl
  | cons a as ih =>
    intro db h
    rw [save_articles_cons]
    have h0 : save_article db c b p a = db :=
      save_article_noop db c b p a (h a (List.mem_cons_self a as))
    rw [h0]
    exact ih db (fun x hx => h x (List.mem_cons_of_mem a hx))

/-- Seed-level version of the previous lemma. -/
theorem save_paginated_noop (c b : String) (prs : List (String × List ArticleDict)) :
    ∀ (db : List Row),
    (∀ pr ∈ prs, ∀ a ∈ pr.2, save_guard a b pr.1 = true → a.title.getD "" ∈ titles db) →
    save_paginated db c b prs = db := by
  induction prs with
  | nil => intro db _; rfl
  | cons pr prs ih =>
    intro db h
    rw [save_paginated_cons]
    have h0 : save_articles db c b pr.1 pr.2 = db :=
      save_articles_noop c b pr.1 pr.2 db (h pr (List.mem_cons_self pr prs))
    rw [h0]
    exact ih db (fun x hx => h x (List.mem_cons_of_mem pr hx))

/-- Run-level version of the previous lemma. -/
theorem save_to_db_noop (c : String)
    (pgs : List (String × List (String × List ArticleDict))) :
    ∀ (db : List Row),
    (∀ pg ∈ pgs, ∀ pr ∈ pg.2, ∀ a ∈ pr.2,
      save_guard a pg.1 pr.1 = true → a.title.getD "" ∈ titles db) →
    save_to_db db c pgs = db := by
  induction pgs with
  | nil => intro db _; rfl
  | cons pg pgs ih =>
    intro db h
    rw [save_to_db_cons]
    have h0 : save_paginated db c pg.1 pg.2 = db :=
      save_paginated_noop c pg.1 pg.2 db (h pg (List.mem_cons_self pg pgs))
    rw [h0]
    exact ih db (fun x hx => h x (List.mem_cons_of_mem pg hx))

/-- After saving a list, every guard-passing article of the list has its
title present. -/
theorem save_articles_present (c b p : String) (as : List ArticleDict) :
    ∀ (db : List Row) (a : ArticleDict), a ∈ as → save_guard a b p = true →
    a.title.getD "" ∈ titles (save_articles db c b p as) := by
  induction as with
  | nil => intro db a ha _; cases ha
  | cons x xs ih =>
    intro db a ha hg
    rw [save_articles_cons]
    rcases List.mem_cons.mp ha with rfl | ha
    · exact mem_titles_save_articles c b p xs (save_article_present db c b p a hg)
    · exact ih _ a ha hg

/-- Seed-level presence lemma. -/
theorem save_paginated_present (c b : String) (prs : List (String × List ArticleDict)) :
    ∀ (db : List Row) (pr : String × List ArticleDict) (a : ArticleDict),
    pr ∈ prs → a ∈ pr.2 → save_guard a b pr.1 = true →
    a.title.getD "" ∈ titles (save_paginated db c b prs) := by
  induction prs with
  | nil => intro db pr a hp _ _; cases hp
  | cons x xs ih =>
    intro db pr a hp ha hg
    rw [save_paginated_cons]
    rcases List.mem_cons.mp hp with rfl | hp
    · exact mem_titles_save_paginated c b xs
        (save_articles_present c b pr.1 pr.2 db a ha hg)
    · exact ih _ pr a hp ha hg

/-- Run-level presence lemma. -/
theorem save_to_db_present (c : String)
    (pgs : List (String × List (String × List ArticleDict))) :
    ∀ (db : List Row) (pg : String × List (String × List ArticleDict))
      (pr : String × List ArticleDict) (a : ArticleDict),
    pg ∈ pgs → pr ∈ pg.2 → a ∈ pr.2 → save_guard a pg.1 pr.1 = true →
    a.title.getD "" ∈ titles (save_to_db db c pgs) := by
  induction pgs with
  | nil => intro db pg pr a hpg _ _ _; cases hpg
  | cons x xs ih =>
    intro db pg pr a hpg hpr ha hg
    rw [save_to_db_cons]
    rcases List.mem_cons.mp hpg with rfl | hpg
    · exact mem_titles_save_to_db c xs
        (save_paginated_present c pg.1 pg.2 db pr a hpr ha hg)
    · exact ih _ pg pr a hpg hpr ha hg

/-- Insert-or-ignore preserves title uniqueness. -/
theorem nodup_insert_or_ignore {db : List Row} (r : Row)
    (h : titlesNodup db) : titlesNodup (insert_or_ignore db r) := by
  unfold insert_or_ignore
  split
  · exact h
  · rename_i hany
    unfold titlesNodup titles
    rw [List.map_append, List.nodup_append]
    refine ⟨h, by simp, ?_⟩
    intro t ht ht2
    simp only [List.map_cons, List.map_nil, List.mem_singleton] at ht2
    subst ht2
    rw [Bool.not_eq_true, ← Bool.not_eq_true _] at hany
    apply hany
    rw [List.any_eq_true]
    simp only [titles, List.mem_map] at ht
    obtain ⟨x, hx, hxt⟩ := ht
    exact ⟨x, hx, by simp [hxt]⟩

/-- One-article save preserves title uniqueness. -/
theorem nodup_save_article (db : List Row) (c b p : String) (a : ArticleDict)
    (h : titlesNodup db) : titlesNodup (save_article db c b p a) := by
  unfold save_article
  split
  · exact nodup_insert_or_ignore _ h
  · exact h

/-- Article-list save preserves title uniqueness. -/
theorem nodup_save_articles (c b p : String) (as : List ArticleDict) :
    ∀ {db : List Row}, titlesNodup db → titlesNodup (save_articles db c b p as) := by
  induction as with
  | nil => intro db h; exact h
  | cons a as ih =>
    intro db h
    rw [save_articles_cons]
    exact ih (nodup_save_article db c b p a h)

/-- Seed-level save preserves title uniqueness. -/
theorem nodup_save_paginated (c b : String) (prs : List (String × List ArticleDict)) :
    ∀ {db : List Row}, titlesNodup db → titlesNodup (save_paginated db c b prs) := by
  induction prs with
  | nil => intro db h; exact h
  | cons pr prs ih =>
    intro db h
    rw [save_paginated_cons]
    exact ih (nodup_save_articles c b pr.1 pr.2 h)

/-- Run-level save preserves title uniqueness. -/
theorem nodup_save_to_db (c : String)
    (pgs : List (String × List (String × List ArticleDict))) :
    ∀ {db : List Row}, titlesNodup db → titlesNodup (save_to_db db c pgs) := by
  induction pgs with
  | nil => intro db h; exact h
  | cons pg pgs ih =>
    intro db h
    rw [save_to_db_cons]
    exact ih (nodup_save_paginated c pg.1 pg.2 h)

/-- C3: the upsert is insert-or-ignore keyed by title — inserting a row
whose title exists is a no-op; running the save step twice on identical
extracted inputs (even with a fresh per-run timestamp) equals running it
once; and the save step keeps the store free of duplicate titles. -/
theorem c3_upsert_idempotent (db : List Row) (r : Row) (c1 c2 : String)
    (pages : List (String × List (String × List ArticleDict))) :
    (r.title ∈ titles db → insert_or_ignore db r = db)
    ∧ save_to_db (save_to_db db c1 pages) c2 pages = save_to_db db c1 pages
    ∧ (titlesNodup db → titlesNodup (save_to_db db c1 pages)) := by
  refine ⟨fun h => insert_or_ignore_noop h, ?_, fun h => nodup_save_to_db c1 pages h⟩
  apply save_to_db_noop
  intro pg hpg pr hpr a ha hg
  exact save_to_db_present c1 pages db pg pr a hpg hpr ha hg

/-- C3 witness: the theorem applied to a concrete store and page
structure. -/
theorem c3_witness :
    insert_or_ignore [wRowA] wRowA = [wRowA]
    ∧ save_to_db (save_to_db [wRowA] "t1" wPages) "t2" wPages
        = save_to_db [wRowA] "t1" wPages
    ∧ titlesNodup (save_to_db [wRowA] "t1" wPages) := by
  have h := c3_upsert_idempotent [wRowA] wRowA "t1" "t2" wPages
  exact ⟨h.1 (by decide), h.2.1, h.2.2 (by unfold titlesNodup; decide)⟩

/-- Primary-key lookup returns a row bearing the looked-up title. -/
theorem findRow_title {db : List Row} {t : String} {r : Row}
    (h : findRow db t = some r) : r.title = t := by
  have := List.find?_some h
  simpa using this

/-- Lookup commutes with a title-preserving row transformation. -/
theorem findRow_map (g : Row → Row) (hg : ∀ x, (g x).title = x.title) :
    ∀ (db : List Row) (t : String), findRow (db.map g) t = (findRow db t).map g := by
  intro db t
  induction db with
  | nil => rfl
  | cons x xs ih =>
    by_cases h : x.title = t
    · unfold findRow
      rw [List.map_cons, List.find?_cons_of_pos _ (by simp [hg x, h]),
        List.find?_cons_of_pos _ (by simp [h])]
      rfl
    · unfold findRow
      rw [List.map_cons, List.find?_cons_of_neg _ (by simp [hg x, h]),
        List.find?_cons_of_neg _ (by simp [h])]
      exact ih

/-- Lookup through a per-title update. -/
theorem findRow_updateByTitle (db : List Row) (t2 : String) (f : Row → Row)
    (hf : ∀ x, (f x).title = x.title) (t : String) :
    findRow (updateByTitle db t2 f) t
      = (findRow db t).map (fun r => if r.title = t2 then f r else r) := by
  apply findRow_map
  intro x
  by_cases h : x.title = t2 <;> simp [h, hf x]

/-- In a table with unique titles, every member is found under its own
title. -/
theorem findRow_self : ∀ {db : List Row} {r : Row},
    titlesNodup db → r ∈ db → findRow db r.title = some r := by
  intro db
  induction db with
  | nil => intro r _ hr; cases hr
  | cons x xs ih =>
    intro r hnd hr
    have hnd2 : (x.title ∉ xs.map (fun y => y.title)) ∧ titlesNodup xs := by
      simpa [titlesNodup, titles] using hnd
    rcases List.mem_cons.mp hr with rfl | hr
    · unfold findRow
      rw [List.find?_cons_of_pos _ (by simp)]
    · have hne : x.title ≠ r.title := by
        intro he
        exact hnd2.1 (he ▸ List.mem_map_of_mem (fun y => y.title) hr)
      unfold findRow
      rw [List.find?_cons_of_neg _ (by simp [hne])]
      exact ih hnd2.2 hr

/-- Unique titles make rows with equal titles equal. -/
theorem titles_inj {db : List Row} {x y : Row} (hnd : titlesNodup db)
    (hx : x ∈ db) (hy : y ∈ db) (h : x.title = y.title) : x = y :=
  List.inj_on_of_nodup_map hnd hx hy h

/-- Selected rows keep unique titles. -/
theorem load_titles_nodup {db : List Row} (h : titlesNodup db) :
    ((load_articles db).map (fun r => r.title)).Nodup :=
  List.Nodup.sublist (List.Sublist.map _ (List.filter_sublist db)) h

/-- Rows whose title is processed by no element of the selection are
untouched by the categorization fold. -/
theorem fold_cat_findRow_ne (decode : Row → Except String (List (String × JVal)))
    (L : List Row) : ∀ (cur : List Row) (t : String),
    t ∉ L.map (fun r => r.title) →
    findRow (L.foldl (cat_step decode) cur) t = findRow cur t := by
  induction L with
  | nil => intro cur t _; rfl
  | cons x xs ih =>
    intro cur t ht
    simp only [List.map_cons, List.mem_cons, not_or] at ht
    rw [List.foldl_cons, ih _ t ht.2]
    unfold cat_step
    cases call_llm (decode x) with
    | error e => rfl
    | ok ex =>
      dsimp only
      rw [findRow_updateByTitle cur x.title (applyExtraction ex) (fun y => rfl) t]
      cases hfr : findRow cur t with
      | none => rfl
      | some r0 =>
        have h0 : r0.title = t := findRow_title hfr
        simp [h0, ht.1]

/-- Each selected row of a unique-titled selection ends at the value of
its own step. -/
theorem fold_cat_findRow_mem (decode : Row → Except String (List (String × JVal)))
    (L : List Row) : ∀ (cur : List Row) (r : Row),
    (L.map (fun x => x.title)).Nodup → r ∈ L → findRow cur r.title = some r →
    findRow (L.foldl (cat_step decode) cur) r.title = some (cat_result decode r) := by
  induction L with
  | nil => intro cur r _ hr _; cases hr
  | cons x xs ih =>
    intro cur r hnd hr hfind
    simp only [List.map_cons, List.nodup_cons] at hnd
    rw [List.foldl_cons]
    rcases List.mem_cons.mp hr with rfl | hr
    · have hstep : findRow (cat_step decode cur r) r.title = some (cat_result decode r) := by
        unfold cat_step cat_result
        cases call_llm (decode r) with
        | error e => exact hfind
        | ok ex =>
          dsimp only
          rw [findRow_updateByTitle cur r.title (applyExtraction ex) (fun y => rfl) _, hfind]
          simp
      rw [fold_cat_findRow_ne decode xs _ _ hnd.1]
      exact hstep
    · apply ih _ r hnd.2 hr
      have hne : r.title ≠ x.title := by
        intro he
        exact hnd.1 (he ▸ List.mem_map_of_mem (fun y => y.title) hr)
      unfold cat_step
      cases call_llm (decode x) with
      | error e => exact hfind
      | ok ex =>
        dsimp only
        rw [findRow_updateByTitle cur x.title (applyExtraction ex) (fun y => rfl) _, hfind]
        simp [hne]

/-- Categorization result of a selected row, by title. -/
theorem process_articles_found {decode : Row → Except String (List (String × JVal))}
    {db : List Row} {r : Row} (hnd : titlesNodup db) (hr : r ∈ load_articles db) :
    findRow (process_articles decode db) r.title = some (cat_result decode r) := by
  unfold process_articles
  exact fold_cat_findRow_mem decode _ _ _ (load_titles_nodup hnd) hr
    (findRow_self hnd (List.mem_of_mem_filter hr))

/-- Rows outside the selection are untouched by categorization. -/
theorem process_articles_untouched {decode : Row → Except String (List (String × JVal))}
    {db : List Row} {r : Row} (hnd : titlesNodup db) (hr : r ∈ db)
    (hnl : r ∉ load_articles db) :
    findRow (process_articles decode db) r.title = some r := by
  unfold process_articles
  rw [fold_cat_findRow_ne]
  · exact findRow_self hnd hr
  · intro hmem
    obtain ⟨x, hx, hxt⟩ := List.mem_map.mp hmem
    have hxr : x = r := titles_inj hnd (List.mem_of_mem_filter hx) hr hxt
    exact hnl (hxr ▸ hx)

/-- Provenance of main_category values after categorization: every result
row is either an input row or carries the main_category of a successful
per-row extraction. -/
theorem process_main_category_provenance
    (decode : Row → Except String (List (String × JVal))) (db : List Row) :
    ∀ r2 ∈ process_articles decode db, r2 ∈ db
      ∨ ∃ r1 ∈ load_articles db, ∃ ex, call_llm (decode r1) = Except.ok ex
          ∧ r2.main_category = some ex.main_category := by
  unfold process_articles
  suffices h : ∀ (L : List Row), (∀ x ∈ L, x ∈ load_articles db) →
      ∀ (cur : List Row),
      (∀ r2 ∈ cur, r2 ∈ db
        ∨ ∃ r1 ∈ load_articles db, ∃ ex, call_llm (decode r1) = Except.ok ex
            ∧ r2.main_category = some ex.main_category) →
      ∀ r2 ∈ L.foldl (cat_step decode) cur, r2 ∈ db
        ∨ ∃ r1 ∈ load_articles db, ∃ ex, call_llm (decode r1) = Except.ok ex
            ∧ r2.main_category = some ex.main_category by
    exact h (load_articles db) (fun x hx => hx) db (fun r2 h2 => Or.inl h2)
  intro L
  induction L with
  | nil => intro _ cur hcur r2 h2; exact hcur r2 h2
  | cons x xs ih =>
    intro hL cur hcur
    rw [List.foldl_cons]
    apply ih (fun y hy => hL y (List.mem_cons_of_mem x hy))
    intro r2 h2
    unfold cat_step at h2
    cases hcall : call_llm (decode x) with
    | error e => rw [hcall] at h2; exact hcur r2 h2
    | ok ex =>
      rw [hcall] at h2
      unfold updateByTitle at h2
      obtain ⟨y, hy, hyeq⟩ := List.mem_map.mp h2
      by_cases ht : y.title = x.title
      · rw [if_pos ht] at hyeq
        right
        exact ⟨x, hL x (List.mem_cons_self x xs), ex, hcall, by rw [← hyeq]; rfl⟩
      · rw [if_neg ht] at hyeq
        exact hcur y hy |>.imp (fun h => hyeq ▸ h) (fun h => hyeq ▸ h)

/-- Text enrichment only writes the article, Author, and
Publication_Date columns: the frame columns are untouched. -/
theorem frame_update_article_details (scrape : String → Option ScrapeRes)
    (db : List Row) :
    (update_article_details scrape db).map frameOf = db.map frameOf := by
  unfold update_article_details
  rw [List.map_map]
  apply List.map_congr_left
  intro x _
  dsimp only [Function.comp]
  split
  · cases scrape x.link with
    | none => rfl
    | some s => rfl
  · rfl

/-- One categorization step leaves the frame columns of every row
untouched. -/
theorem frame_cat_step (decode : Row → Except String (List (String × JVal)))
    (cur : List Row) (r : Row) :
    (cat_step decode cur r).map frameOf = cur.map frameOf := by
  unfold cat_step
  cases call_llm (decode r) with
  | error e => rfl
  | ok ex =>
    unfold updateByTitle
    rw [List.map_map]
    apply List.map_congr_left
    intro x _
    dsimp only [Function.comp]
    split <;> rfl

/-- Categorization leaves the frame columns of every row untouched. -/
theorem frame_process_articles (decode : Row → Except String (List (String × JVal)))
    (db : List Row) :
    (process_articles decode db).map frameOf = db.map frameOf := by
  unfold process_articles
  suffices h : ∀ (L : List Row) (cur : List Row),
      (L.foldl (cat_step decode) cur).map frameOf = cur.map frameOf by
    exact h _ db
  intro L
  induction L with
  | nil => intro cur; rfl
  | cons x xs ih =>
    intro cur
    rw [List.foldl_cons, ih, frame_cat_step]

/-- Lookup survives an insert-or-ignore of any further row. -/
theorem findRow_insert_found {db : List Row} {t : String} {r0 : Row}
    (h : findRow db t = some r0) (r1 : Row) :
    findRow (insert_or_ignore db r1) t = some r0 := by
  unfold insert_or_ignore
  split
  · exact h
  · unfold findRow at h ⊢
    rw [List.find?_append, h]
    rfl

/-- C8: in the categorization pass, a row whose response fails to parse
against the schema (or whose call raises) is left completely unchanged,
the failure is caught rather than propagated (the embedded pass is a
total function on the store), and the remaining rows are still
processed: every other selected row with a successful call receives its
four-column update. -/
theorem c8_row_failure_isolated
    (decode : Row → Except String (List (String × JVal))) (db : List Row)
    (r : Row) (e : String) (hnd : titlesNodup db) (hr : r ∈ load_articles db)
    (herr : call_llm (decode r) = Except.error e) :
    findRow (process_articles decode db) r.title = some r
    ∧ ∀ (r2 : Row) (ex : ArticleExtractionResponse), r2 ∈ load_articles db →
        call_llm (decode r2) = Except.ok ex →
        findRow (process_articles decode db) r2.title = some (applyExtraction ex r2) := by
  constructor
  · have hres : cat_result decode r = r := by
      unfold cat_result
      rw [herr]
    rw [process_articles_found hnd hr, hres]
  · intro r2 ex h2 hok
    have hres : cat_result decode r2 = applyExtraction ex r2 := by
      unfold cat_result
      rw [hok]
    rw [process_articles_found hnd h2, hres]

/-- C8 witness: a two-row store where the call for row A raises and the
call for row B succeeds; row A is unchanged, row B is updated. -/
theorem c8_witness :
    findRow (process_articles wDecode [wRowA, wRowB]) "A" = some wRowA
    ∧ findRow (process_articles wDecode [wRowA, wRowB]) "B"
        = some (applyExtraction wExtract wRowB) := by
  have h := c8_row_failure_isolated wDecode [wRowA, wRowB] wRowA "API error"
    (by unfold titlesNodup; decide) (by decide) rfl
  exact ⟨h.1, h.2 wRowB wExtract (by decide) rfl⟩

/-- C9: the created_time column (together with the other frame columns
Title, Link, base URL, paginated URL) is written at first insert and
never changes: a duplicate-title insert leaves the stored row as it was,
and both enrichment passes preserve the frame columns of every row. -/
theorem c9_created_time_frame (db : List Row) (t : String) (r0 r1 : Row)
    (scrape : String → Option ScrapeRes)
    (decode : Row → Except String (List (String × JVal))) :
    (findRow db t = some r0 → findRow (insert_or_ignore db r1) t = some r0)
    ∧ (update_article_details scrape db).map frameOf = db.map frameOf
    ∧ (process_articles decode db).map frameOf = db.map frameOf :=
  ⟨fun h => findRow_insert_found h r1,
   frame_update_article_details scrape db,
   frame_process_articles decode db⟩

/-- C9 witness: duplicate insert of a row with the title of wRowA leaves
the stored row intact, and the enrichment passes keep the frame columns
of a concrete store. -/
theorem c9_witness :
    findRow (insert_or_ignore [wRowA] wRowB) "A" = some wRowA
    ∧ (update_article_details wScrape [wRowA]).map frameOf = [wRowA].map frameOf
    ∧ (process_articles wDecode [wRowA, wRowB]).map frameOf
        = [wRowA, wRowB].map frameOf := by
  have h := c9_created_time_frame [wRowA] "A" wRowA wRowB wScrape wDecode
  have h2 := c9_created_time_frame [wRowA, wRowB] "A" wRowA wRowB wScrape wDecode
  exact ⟨h.1 rfl, h.2.1, h2.2.2⟩

/-- C10: the four categorical columns are written atomically by one
UPDATE: for every row of a unique-titled store, after the pass the row
either kept all four columns exactly as they were (failed or unselected
row) or has all four non-null (successful update); no row ends with only
some of the four newly written. -/
theorem c10_categorical_atomicity
    (decode : Row → Except String (List (String × JVal))) (db : List Row)
    (r : Row) (hnd : titlesNodup db) (hr : r ∈ db) :
    ∃ r2, findRow (process_articles decode db) r.title = some r2
      ∧ ((r2.keywords = r.keywords ∧ r2.main_category = r.main_category
          ∧ r2.subcategories = r.subcategories ∧ r2.summary = r.summary)
        ∨ (r2.keywords ≠ none ∧ r2.main_category ≠ none
          ∧ r2.subcategories ≠ none ∧ r2.summary ≠ none)) := by
  by_cases hl : r ∈ load_articles db
  · refine ⟨cat_result decode r, process_articles_found hnd hl, ?_⟩
    unfold cat_result
    cases call_llm (decode r) with
    | error e => exact Or.inl ⟨rfl, rfl, rfl, rfl⟩
    | ok ex =>
      refine Or.inr ⟨?_, ?_, ?_, ?_⟩ <;> simp [applyExtraction]
  · exact ⟨r, process_articles_untouched hnd hr hl, Or.inl ⟨rfl, rfl, rfl, rfl⟩⟩

/-- C10 witness: the theorem at a concrete store and decode. -/
theorem c10_witness :
    ∃ r2, findRow (process_articles wDecode [wRowA, wRowB]) "B" = some r2
      ∧ ((r2.keywords = wRowB.keywords ∧ r2.main_category = wRowB.main_category
          ∧ r2.subcategories = wRowB.subcategories ∧ r2.summary = wRowB.summary)
        ∨ (r2.keywords ≠ none ∧ r2.main_category ≠ none
          ∧ r2.subcategories ≠ none ∧ r2.summary ≠ none)) :=
  c10_categorical_atomicity wDecode [wRowA, wRowB] wRowB
    (by unfold titlesNodup; decide) (by decide)

/-- C2 counterexample: the claim says every value the categorization pass
writes into main_category is validated against the ten-value taxonomy
before being stored.  The pydantic model only checks that main_category
is a string — the enum lives solely in the request schema sent to the
model — so a response carrying the string Technology passes validation
and is stored although it is not a taxonomy member. -/
theorem c2_counterexample :
    process_articles cDecodeBad [wRowB]
      = [{ wRowB with keywords := some "[]", main_category := some "Technology",
                      subcategories := some "[]", summary := some "s" }]
    ∧ "Technology" ∉ taxonomy := by
  constructor
  · rfl
  · decide

/-- C2 as amended: the stored main_category is always one of the ten
taxonomy values provided the model honours the enum of the request
schema — i.e. if every successfully parsed response carries a taxonomy
main_category and the store already satisfies the invariant, the pass
preserves it.  The code itself performs no client-side membership
check. -/
theorem c2_taxonomy_conditional
    (decode : Row → Except String (List (String × JVal))) (db : List Row)
    (hdb : ∀ r ∈ db, ∀ v, r.main_category = some v → v ∈ taxonomy)
    (hresp : ∀ r ∈ load_articles db, ∀ ex, call_llm (decode r) = Except.ok ex →
      ex.main_category ∈ taxonomy) :
    ∀ r2 ∈ process_articles decode db, ∀ v, r2.main_category = some v →
      v ∈ taxonomy := by
  intro r2 h2 v hv
  rcases process_main_category_provenance decode db r2 h2 with h | ⟨r1, h1, ex, hok, hm⟩
  · exact hdb r2 h v hv
  · rw [hm] at hv
    rw [← Option.some.inj hv]
    exact hresp r1 h1 ex hok

/-- C2 witness: the amended theorem at a concrete store whose decode
returns a taxonomy member, evaluated on the concrete result row. -/
theorem c2_witness :
    (applyExtraction wExtract wRowB).main_category = some "IoT Security and Privacy"
    ∧ "IoT Security and Privacy" ∈ taxonomy := by
  have h := c2_taxonomy_conditional wDecode [wRowB]
    (by
      intro r hr v hv
      rw [List.mem_singleton] at hr
      subst hr
      simp [wRowB] at hv)
    (by
      intro r hr ex hok
      have hr2 : r = wRowB := by
        have := List.mem_of_mem_filter hr
        rwa [List.mem_singleton] at this
      subst hr2
      have hex : ex = wExtract := by
        have hc : call_llm (wDecode wRowB) = Except.ok wExtract := rfl
        rw [hc] at hok
        exact (Except.ok.inj hok).symm
      subst hex
      decide)
  refine ⟨rfl, h (applyExtraction wExtract wRowB) (by decide) "IoT Security and Privacy" rfl⟩

/-- Row transformation of the text-enrichment pass preserves the
title. -/
theorem update_details_title (scrape : String → Option ScrapeRes) (x : Row) :
    (if selectedForUpdate x then
        match scrape x.link with
        | none => x
        | some s => applyScrape x s
      else x).title = x.title := by
  split
  · cases scrape x.link with
    | none => rfl
    | some s => rfl
  · rfl

/-- C1 counterexample: the claim says enrichment never overwrites a
non-null body text and prefers the existing author over the incoming
one.  On a row with non-null body text and author but null publication
date — which the query still selects — the update overwrites the body
text unconditionally and replaces the existing author with the scraped
one. -/
theorem c1_counterexample :
    update_article_details cScrapeNew [cRowOld]
      = [{ cRowOld with article := some "new body", author := some "Bob" }]
    ∧ cRowOld.article = some "old body"
    ∧ cRowOld.author = some "Alice" :=
  ⟨rfl, rfl, rfl⟩

/-- C1 as amended: enrichment is null-monotonic — no pass replaces a
non-null field with null.  On every selected row (body text, author, or
publication date null) whose scrape succeeds, the text pass overwrites
body text with the newly scraped text even when non-null, and for author
and publication date it prefers the incoming scraped value over the
existing one whenever the scrape yields one, keeping the existing value
otherwise.  The categorization pass touches only rows with at least one
categorical field null and never touches a row whose four categorical
fields are all non-null, so in the all-or-nothing states the pipeline
itself produces, non-null categorical fields are never overwritten. -/
theorem c1_enrichment_policy :
    (∀ (r : Row) (s : ScrapeRes), (applyScrape r s).article = some s.text)
    ∧ (∀ (r : Row) (s : ScrapeRes), r.author ≠ none → (applyScrape r s).author ≠ none)
    ∧ (∀ (r : Row) (s : ScrapeRes), r.pub_date ≠ none → (applyScrape r s).pub_date ≠ none)
    ∧ (∀ (r : Row) (s : ScrapeRes), s.authors ≠ [] →
        (applyScrape r s).author = some (joinComma s.authors))
    ∧ (∀ (r : Row) (s : ScrapeRes), s.authors = [] → (applyScrape r s).author = r.author)
    ∧ (∀ (r : Row) (s : ScrapeRes) (d : String), s.publish_date = some d →
        (applyScrape r s).pub_date = some d)
    ∧ (∀ (r : Row) (s : ScrapeRes), s.publish_date = none →
        (applyScrape r s).pub_date = r.pub_date)
    ∧ (∀ (scrape : String → Option ScrapeRes) (db : List Row) (r : Row) (s : ScrapeRes),
        titlesNodup db → r ∈ db → selectedForUpdate r = true → scrape r.link = some s →
        findRow (update_article_details scrape db) r.title = some (applyScrape r s))
    ∧ (∀ (scrape : String → Option ScrapeRes) (db : List Row) (r : Row),
        titlesNodup db → r ∈ db → selectedForUpdate r = false →
        findRow (update_article_details scrape db) r.title = some r)
    ∧ (∀ (decode : Row → Except String (List (String × JVal))) (db : List Row) (r : Row),
        titlesNodup db → r ∈ db → r.keywords ≠ none → r.main_category ≠ none →
        r.subcategories ≠ none → r.summary ≠ none →
        findRow (process_articles decode db) r.title = some r) := by
  refine ⟨fun r s => rfl, ?_, ?_, ?_, ?_, ?_, ?_, ?_, ?_, ?_⟩
  · intro r s h
    unfold applyScrape
    dsimp only
    split
    · simp
    · exact h
  · intro r s h
    unfold applyScrape
    dsimp only
    split
    · simp
    · exact h
  · intro r s h
    unfold applyScrape
    dsimp only
    rw [if_pos h]
  · intro r s h
    unfold applyScrape
    dsimp only
    rw [if_neg (by simp [h])]
    cases hr : r.author with
    | none => rfl
    | some a => rfl
  · intro r s d h
    unfold applyScrape
    dsimp only
    rw [h]
  · intro r s h
    unfold applyScrape
    dsimp only
    rw [h]
    cases hr : r.pub_date with
    | none => rfl
    | some a => rfl
  · intro scrape db r s hnd hr hsel hscr
    unfold update_article_details
    rw [findRow_map _ (update_details_title scrape), findRow_self hnd hr]
    simp only [Option.map_some']
    rw [if_pos hsel, hscr]
  · intro scrape db r hnd hr hsel
    unfold update_article_details
    rw [findRow_map _ (update_details_title scrape), findRow_self hnd hr]
    simp only [Option.map_some']
    rw [if_neg (by rw [hsel]; exact Bool.false_ne_true)]
  · intro decode db r hnd hr h1 h2 h3 h4
    apply process_articles_untouched hnd hr
    intro hmem
    have hp := (List.mem_filter.mp hmem).2
    cases hk : r.keywords with
    | none => exact h1 hk
    | some vk =>
      cases hm : r.main_category with
      | none => exact h2 hm
      | some vm =>
        cases hsc : r.subcategories with
        | none => exact h3 hsc
        | some vs =>
          cases hsu : r.summary with
          | none => exact h4 hsu
          | some vu =>
            rw [hk, hm, hsc, hsu] at hp
            simp at hp

/-- C1 witness: the amended theorem applied to a concrete selected row
whose scrape succeeds. -/
theorem c1_witness :
    (applyScrape wRowB ⟨"text", ["Ann"], some "2023-01-01"⟩).article = some "text"
    ∧ findRow (update_article_details wScrape [wRowA]) "A"
        = some (applyScrape wRowA ⟨"text", ["Ann"], some "2023-01-01"⟩) := by
  have h := c1_enrichment_policy
  refine ⟨h.1 wRowB ⟨"text", ["Ann"], some "2023-01-01"⟩, ?_⟩
  exact h.2.2.2.2.2.2.2.1 wScrape [wRowA] wRowA ⟨"text", ["Ann"], some "2023-01-01"⟩
    (by unfold titlesNodup; decide) (by decide) (by decide) rfl

end Scraper
